import Mathlib

/-!
A verification development for the Events-Calendar repository.

The core under study is the recurrence-expansion engine
`generateRecurringEvents(event, monthStart, monthEnd)` from the event-utility
module, together with the ICS export formatter `generateICS(event)`.

Modelling conventions (shallow embedding of the JavaScript source):

* A JavaScript `Date` is modelled by its timestamp: an integer number of
  milliseconds since the Unix epoch, interpreted in UTC (the model is
  timezone-free, so `getDate`/`getDay`/`getFullYear` agree with their UTC
  variants).  `Date` comparisons (`<=`, `>=`) compare timestamps, exactly as
  in JavaScript.
* `currentDate.setDate(currentDate.getDate() + 1)` advances the date by
  exactly one calendar day while preserving the time of day; in a
  timezone-free model this is exactly `ts + 86400000`.
* The civil (Gregorian) calendar functions `getFullYear`, `getMonth`,
  `getDate`, `getDay` are platform primitives, not source code; they are
  modelled by an explicit proleptic-Gregorian conversion (`civilFromDays`)
  whose correctness properties are proved below.
* `event.daysOfWeek` is the stored comma-separated string; the JavaScript
  falsy test `event.daysOfWeek ? ... : []` sends the empty string to `[]`.
  `Number(s)` is modelled by `String.toInt?`, with `none` playing the role
  of `NaN` (which compares unequal to every weekday index, as in JS).
* Fields irrelevant to control flow (`title`, `description`, `id`,
  `createdAt`, `updatedAt`) are carried verbatim.
-/

namespace Cal

/-- Milliseconds per calendar day. -/
def msPerDay : Int := 86400000

/-- Epoch day of an instant: `Math.floor(ts / 86400000)`.  On `Int`, `/` is
floor division whenever the divisor is positive, matching `Math.floor`. -/
def epochDay (ts : Int) : Int := ts / msPerDay

/-- Model of `Date.prototype.getDay`: weekday index, 0 = Sunday … 6 = Saturday.
Epoch day 0 (1970-01-01) was a Thursday, index 4. -/
def getDay (ts : Int) : Int := (epochDay ts + 4) % 7

/-- Proleptic-Gregorian civil date `(year, month 1..12, day-of-month)` of an
epoch day.  The conversion decomposes the day count era-by-era (400ize = 146097
days), then century, then 4-year group, then year; it agrees with the
standard Gregorian calendar (spot-checked against known dates below and
characterized by `daysFromCivil_civilFromDays`). -/
def civilFromDays (z : Int) : Int × Int × Int :=
  let zz := z + 719468
  let era := zz / 146097
  let doe := zz - era * 146097
  let c := doe / 36524 - doe / 146096
  let r2 := doe - 36524 * c
  let g := r2 / 1461
  let r3 := r2 - 1461 * g
  let y3 := r3 / 365 - r3 / 1460
  let doy := r3 - 365 * y3
  let yoe := 100 * c + 4 * g + y3
  let mp := (5 * doy + 2) / 153
  let d := doy - (153 * mp + 2) / 5 + 1
  let m := mp + (if mp < 10 then 3 else -9)
  (yoe + era * 400 + (if m ≤ 2 then 1 else 0), m, d)

/-- Inverse of `civilFromDays`: epoch day of a civil date (Howard Hinnant's
`days_from_civil`). -/
def daysFromCivil (y m d : Int) : Int :=
  let y' := y - (if m ≤ 2 then 1 else 0)
  let era := y' / 400
  let yoe := y' - era * 400
  let doy := (153 * (m + (if 2 < m then -3 else 9)) + 2) / 5 + d - 1
  let doe := yoe * 365 + yoe / 4 - yoe / 100 + doy
  era * 146097 + doe - 719468

/-- Civil date of an instant. -/
def civilOf (ts : Int) : Int × Int × Int := civilFromDays (epochDay ts)

/-- Model of `Date.prototype.getFullYear` (UTC). -/
def getFullYear (ts : Int) : Int := (civilOf ts).1

/-- Month number 1..12 of an instant (JavaScript's `getMonth()` returns 0..11;
this is `getMonth() + 1`, the form used by the ICS formatter). -/
def getMonthNum (ts : Int) : Int := (civilOf ts).2.1

/-- Model of `Date.prototype.getDate`: day of month 1..31. -/
def getDate (ts : Int) : Int := (civilOf ts).2.2

/-- Number of days in a civil month (month 1..12), with the Gregorian leap
rule for February. -/
def daysInMonth (y m : Int) : Int :=
  if m = 2 then
    (if y % 4 = 0 ∧ (y % 100 ≠ 0 ∨ y % 400 = 0) then 29 else 28)
  else if m = 4 ∨ m = 6 ∨ m = 9 ∨ m = 11 then 30
  else 31

/-- The event record, as stored by the application (Prisma `Event` model).
Dates are timestamps; `daysOfWeek` is the stored comma-separated string. -/
structure Event where
  id : Int
  title : String
  description : String
  startDate : Int
  endDate : Int
  isRecurring : Bool
  frequency : String
  daysOfWeek : String
  createdAt : Int
  updatedAt : Int
deriving DecidableEq, Repr

/-- An occurrence produced by the expander: `{ ...event, displayDate }`. -/
structure Occurrence where
  event : Event
  displayDate : Int
deriving DecidableEq, Repr

/-- Model of JavaScript `Number(s)` on the weekday strings: `none` plays the
role of `NaN` (it compares unequal to every actual weekday index). -/
def jsNumber (s : String) : Option Int := s.toInt?

/-- `event.daysOfWeek ? event.daysOfWeek.split(',').map(Number) : []`.
The empty string is falsy in JavaScript and yields `[]`. -/
def parseDaysOfWeek (s : String) : List (Option Int) :=
  if s = "" then [] else (s.splitOn ",").map jsNumber

/-- The per-day recurrence test of the expander loop: the `shouldAdd` flag
computed by the `daily` / `weekly` / `monthly` branches (an unrecognized
frequency leaves the flag `false`). -/
def shouldAdd (ev : Event) (startDate : Int) (daysOfWeek : List (Option Int))
    (currentDate : Int) : Bool :=
  if ev.frequency = "daily" then true
  else if ev.frequency = "weekly" then
    daysOfWeek.contains (some (getDay currentDate))
  else if ev.frequency = "monthly" then
    getDate currentDate == getDate startDate
  else false

/-- The `while (currentDate <= monthEnd)` loop of `generateRecurringEvents`:
test the current day, push an occurrence when `shouldAdd && currentDate >=
startDate`, then advance one calendar day. -/
def genLoop (ev : Event) (startDate : Int) (daysOfWeek : List (Option Int))
    (monthEnd : Int) (currentDate : Int) : List Occurrence :=
  if h : currentDate ≤ monthEnd then
    (if shouldAdd ev startDate daysOfWeek currentDate ∧ startDate ≤ currentDate then
      { event := ev, displayDate := currentDate } :: genLoop ev startDate daysOfWeek monthEnd (currentDate + msPerDay)
    else
      genLoop ev startDate daysOfWeek monthEnd (currentDate + msPerDay))
  else []
termination_by (monthEnd + msPerDay - currentDate).toNat
decreasing_by
  all_goals simp only [msPerDay] at *
  all_goals omega

/-- `generateRecurringEvents(event, monthStart, monthEnd)` from the event
utilities.  Non-recurring events are emitted once when their `startDate`
timestamp lies in `[monthStart, monthEnd]`; recurring events iterate from
`max(startDate, monthStart)` to `monthEnd` one day at a time.  Note that the
source declares `const endDate = new Date(event.endDate)` but never uses it:
the loop is bounded by `monthEnd` alone, and this model is faithful to that. -/
def generateRecurringEvents (ev : Event) (monthStart monthEnd : Int) :
    List Occurrence :=
  if !ev.isRecurring then
    (if monthStart ≤ ev.startDate ∧ ev.startDate ≤ monthEnd then
      [{ event := ev, displayDate := ev.startDate }]
    else [])
  else
    genLoop ev ev.startDate (parseDaysOfWeek ev.daysOfWeek) monthEnd
      (max ev.startDate monthStart)

/-- The sequence of candidate instants visited by the expander loop: one per
iteration, starting at `currentDate` and advancing `msPerDay` until past
`monthEnd`. -/
def candidates (currentDate monthEnd : Int) : List Int :=
  if h : currentDate ≤ monthEnd then
    currentDate :: candidates (currentDate + msPerDay) monthEnd
  else []
termination_by (monthEnd + msPerDay - currentDate).toNat
decreasing_by
  all_goals simp only [msPerDay] at *
  all_goals omega

/-- Number of iterations the loop performs when started at `currentDate`. -/
def numDays (currentDate monthEnd : Int) : Nat :=
  if currentDate ≤ monthEnd then ((monthEnd - currentDate) / msPerDay + 1).toNat
  else 0

/-- Zero-pad a number to two digits: `String(n).padStart(2, '0')`. -/
def pad2 (n : Int) : String :=
  if (toString n).length < 2 then "0" ++ toString n else toString n

/-- `formatICSDate`: render a timestamp as `YYYYMMDDTHHMMSSZ` using the UTC
field accessors. -/
def formatICSDate (ts : Int) : String :=
  let z := epochDay ts
  let cd := civilFromDays z
  let msOfDay := ts - z * msPerDay
  toString cd.1 ++ pad2 cd.2.1 ++ pad2 cd.2.2 ++ "T" ++
    pad2 (msOfDay / 3600000) ++ pad2 ((msOfDay / 60000) % 60) ++
    pad2 ((msOfDay / 1000) % 60) ++ "Z"

/-- The ICS two-letter weekday codes, indexed by weekday number. -/
def dayMap : List String := ["SU", "MO", "TU", "WE", "TH", "FR", "SA"]

/-- `dayMap[parseInt(d)]` for one component of `daysOfWeek`; an out-of-range
or non-numeric index yields JavaScript `undefined`, which `Array.prototype.join`
renders as the empty string. -/
def dayCode (s : String) : String :=
  match jsNumber s with
  | some i => if 0 ≤ i ∧ i < 7 then dayMap.getD i.toNat "" else ""
  | none => ""

/-- The `RRULE:` line built by `generateICS` for recurring events (empty
string when none applies). -/
def rrule (ev : Event) : String :=
  if ev.isRecurring then
    if ev.frequency = "daily" then "RRULE:FREQ=DAILY"
    else if ev.frequency = "weekly" ∧ ev.daysOfWeek ≠ "" then
      "RRULE:FREQ=WEEKLY;BYDAY=" ++
        String.intercalate "," ((ev.daysOfWeek.splitOn ",").map dayCode)
    else if ev.frequency = "monthly" then "RRULE:FREQ=MONTHLY"
    else ""
  else ""

/-- One layer of `escapeText`: `text.replace(/c/g, r)` for a single-character
pattern `c`, working on the character list of the string. -/
def replaceCharL (l : List Char) (c : Char) (r : List Char) : List Char :=
  l.flatMap (fun a => if a = c then r else [a])

/-- Character list form of `escapeText`: escape backslash first, then `;`,
`,`, and newline, exactly in the source's order of `replace` calls. -/
def escapeTextL (l : List Char) : List Char :=
  replaceCharL (replaceCharL (replaceCharL (replaceCharL l '\\' ['\\', '\\'])
    ';' ['\\', ';']) ',' ['\\', ',']) '\n' ['\\', 'n']

/-- `escapeText` from `generateICS`: `if (!text) return ''` then the four
chained `replace` calls. -/
def escapeText (s : String) : String :=
  if s = "" then "" else (escapeTextL s.toList).asString

/-- The expected image of a single character under `escapeText`: each special
character appears backslash-escaped, every other character verbatim. -/
def escChar (c : Char) : List Char :=
  if c = '\\' then ['\\', '\\']
  else if c = ';' then ['\\', ';']
  else if c = ',' then ['\\', ',']
  else if c = '\n' then ['\\', 'n']
  else [c]

/-- The lines assembled by `generateICS` before empty lines are filtered out. -/
def icsLines (ev : Event) : List String :=
  ["BEGIN:VCALENDAR",
   "VERSION:2.0",
   "PRODID:-//Event Calendar//Event Calendar App//EN",
   "CALSCALE:GREGORIAN",
   "METHOD:PUBLISH",
   "BEGIN:VEVENT",
   "UID:event-" ++ toString ev.id ++ "@event-calendar.com",
   "DTSTAMP:" ++ formatICSDate ev.createdAt,
   "DTSTART:" ++ formatICSDate ev.startDate,
   "DTEND:" ++ formatICSDate ev.endDate,
   "SUMMARY:" ++ escapeText ev.title,
   (if ev.description ≠ "" then "DESCRIPTION:" ++ escapeText ev.description else ""),
   "CREATED:" ++ formatICSDate ev.createdAt,
   "LAST-MODIFIED:" ++ formatICSDate ev.updatedAt,
   rrule ev,
   "STATUS:CONFIRMED",
   "TRANSP:OPAQUE",
   "END:VEVENT",
   "END:VCALENDAR"]

/-- `generateICS`: join the nonempty lines with CRLF. -/
def generateICS (ev : Event) : String :=
  String.intercalate "\r\n" ((icsLines ev).filter (fun l => l != ""))

/-! Concrete event records used to instantiate individual checks. -/

/-- Daily event 1970-01-01 .. 1970-01-05 (endDate five days after start). -/
def evC1 : Event :=
  { id := 1, title := "standup", description := "", startDate := 0,
    endDate := 4 * msPerDay, isRecurring := true, frequency := "daily",
    daysOfWeek := "", createdAt := 0, updatedAt := 0 }

/-- Daily event 1970-01-01 .. 1970-01-05, for the counting check. -/
def evC2 : Event :=
  { id := 2, title := "daily", description := "", startDate := 0,
    endDate := 4 * msPerDay, isRecurring := true, frequency := "daily",
    daysOfWeek := "", createdAt := 0, updatedAt := 0 }

/-- One-time event at noon 1970-01-01 (nonzero time of day). -/
def evC3a : Event :=
  { id := 3, title := "noon", description := "", startDate := 43200000,
    endDate := 43200000, isRecurring := false, frequency := "",
    daysOfWeek := "", createdAt := 0, updatedAt := 0 }

/-- One-time event at instant 5. -/
def evC3b : Event :=
  { id := 4, title := "once", description := "", startDate := 5,
    endDate := 5, isRecurring := false, frequency := "",
    daysOfWeek := "", createdAt := 0, updatedAt := 0 }

/-- Weekly Mon/Wed/Fri event anchored 1970-01-01. -/
def evC4 : Event :=
  { id := 5, title := "gym", description := "", startDate := 0,
    endDate := 365 * msPerDay, isRecurring := true, frequency := "weekly",
    daysOfWeek := "1,3,5", createdAt := 0, updatedAt := 0 }

/-- Monthly event anchored 1970-01-31 (day-of-month 31). -/
def evC5 : Event :=
  { id := 6, title := "rent", description := "", startDate := 30 * msPerDay,
    endDate := 365 * msPerDay, isRecurring := true, frequency := "monthly",
    daysOfWeek := "", createdAt := 0, updatedAt := 0 }

/-- Weekly event whose daysOfWeek string is empty. -/
def evC6 : Event :=
  { id := 7, title := "empty", description := "", startDate := 0,
    endDate := 365 * msPerDay, isRecurring := true, frequency := "weekly",
    daysOfWeek := "", createdAt := 0, updatedAt := 0 }

/-- Event whose free-text fields contain every special character. -/
def evC8 : Event :=
  { id := 8, title := "a,b;c\\d", description := "line1\nline2, x; y\\z",
    startDate := 0, endDate := 3600000, isRecurring := false, frequency := "",
    daysOfWeek := "", createdAt := 0, updatedAt := 0 }

/-- Monthly event anchored 1970-01-31, for the February-skip check. -/
def evC9 : Event :=
  { id := 9, title := "eom", description := "", startDate := 30 * msPerDay,
    endDate := 365 * msPerDay, isRecurring := true, frequency := "monthly",
    daysOfWeek := "", createdAt := 0, updatedAt := 0 }

/-- Daily recurring event anchored 1970-01-01, for the termination check. -/
def evC10 : Event :=
  { id := 10, title := "loop", description := "", startDate := 0,
    endDate := 365 * msPerDay, isRecurring := true, frequency := "daily",
    daysOfWeek := "", createdAt := 0, updatedAt := 0 }

/-! Sanity checks of the calendar model against known dates. -/

example : civilFromDays 0 = (1970, 1, 1) := by decide

example : civilFromDays 19782 = (2024, 2, 29) := by decide

example : civilFromDays 11016 = (2000, 2, 29) := by decide

example : civilFromDays (-25509) = (1900, 2, 28) := by decide

example : civilFromDays (-1) = (1969, 12, 31) := by decide

example : getDay 0 = 4 := by decide

/-! Characterization of the expander loop. -/

/-- Unfolding `candidates` when the loop guard holds. -/
theorem candidates_of_le {cur me : Int} (h : cur ≤ me) :
    candidates cur me = cur :: candidates (cur + msPerDay) me := by
  rw [candidates]
  simp [h]

/-- Unfolding `candidates` when the loop guard fails. -/
theorem candidates_of_gt {cur me : Int} (h : ¬ cur ≤ me) :
    candidates cur me = [] := by
  rw [candidates]
  simp [h]

/-- Unfolding `genLoop` when the loop guard holds. -/
theorem genLoop_of_le {ev : Event} {s : Int} {days : List (Option Int)}
    {me cur : Int} (h : cur ≤ me) :
    genLoop ev s days me cur =
      (if shouldAdd ev s days cur ∧ s ≤ cur then
        { event := ev, displayDate := cur } :: genLoop ev s days me (cur + msPerDay)
      else genLoop ev s days me (cur + msPerDay)) := by
  rw [genLoop]
  simp [h]

/-- Unfolding `genLoop` when the loop guard fails. -/
theorem genLoop_of_gt {ev : Event} {s : Int} {days : List (Option Int)}
    {me cur : Int} (h : ¬ cur ≤ me) :
    genLoop ev s days me cur = [] := by
  rw [genLoop]
  simp [h]

/-- The loop is the filter of the candidate sequence by the emission test. -/
theorem genLoop_eq_filterMap (ev : Event) (s : Int) (days : List (Option Int))
    (me cur : Int) :
    genLoop ev s days me cur =
      (candidates cur me).filterMap
        (fun t => if shouldAdd ev s days t ∧ s ≤ t then
          some { event := ev, displayDate := t } else none) := by
  generalize hm : (me + msPerDay - cur).toNat = n
  induction n using Nat.strong_induction_on generalizing cur with
  | _ n ih =>
    by_cases h : cur ≤ me
    · rw [candidates_of_le h, genLoop_of_le h, List.filterMap_cons]
      have hrec : genLoop ev s days me (cur + msPerDay) =
          (candidates (cur + msPerDay) me).filterMap
            (fun t => if shouldAdd ev s days t ∧ s ≤ t then
              some { event := ev, displayDate := t } else none) := by
        apply ih ((me + msPerDay - (cur + msPerDay)).toNat) _ (cur + msPerDay) rfl
        simp only [msPerDay] at hm ⊢
        omega
      by_cases hc : shouldAdd ev s days cur ∧ s ≤ cur
      · simp [hc, hrec]
      · simp [hc, hrec]
    · rw [candidates_of_gt h, genLoop_of_gt h, List.filterMap_nil]

/-- Closed form of the candidate sequence: an arithmetic progression with
step `msPerDay` and `numDays` terms. -/
theorem candidates_eq_map_range (cur me : Int) :
    candidates cur me =
      (List.range (numDays cur me)).map (fun (k : Nat) => cur + (k : Int) * msPerDay) := by
  generalize hm : (me + msPerDay - cur).toNat = n
  induction n using Nat.strong_induction_on generalizing cur with
  | _ n ih =>
    by_cases h : cur ≤ me
    · have hrec := ih ((me + msPerDay - (cur + msPerDay)).toNat)
        (by simp only [msPerDay] at hm ⊢; omega) (cur + msPerDay) rfl
      have hnum : numDays cur me = numDays (cur + msPerDay) me + 1 := by
        simp only [numDays, msPerDay] at *
        split <;> split <;> omega
      rw [candidates_of_le h, hrec, hnum, List.range_succ_eq_map]
      simp only [List.map_cons, List.map_map, Nat.cast_zero, zero_mul, add_zero]
      congr 1
      apply List.map_congr_left
      intro k _
      simp only [Function.comp_apply, Nat.cast_succ]
      ring
    · rw [candidates_of_gt h]
      simp [numDays, h]

/-- Membership in the candidate sequence. -/
theorem mem_candidates {t cur me : Int} :
    t ∈ candidates cur me ↔
      ∃ k : Nat, k < numDays cur me ∧ t = cur + (k : Int) * msPerDay := by
  rw [candidates_eq_map_range]
  constructor
  · intro ht
    rcases List.mem_map.mp ht with ⟨k, hk, hkt⟩
    exact ⟨k, List.mem_range.mp hk, hkt.symm⟩
  · rintro ⟨k, hk, rfl⟩
    exact List.mem_map.mpr ⟨k, List.mem_range.mpr hk, rfl⟩

/-- Each candidate lies within the iteration bounds. -/
theorem candidates_bounds {t cur me : Int} (ht : t ∈ candidates cur me) :
    cur ≤ t ∧ t ≤ me := by
  rcases mem_candidates.mp ht with ⟨k, hk, rfl⟩
  simp only [numDays, msPerDay] at *
  constructor
  · omega
  · split at hk <;> omega

/-- The number of loop iterations. -/
theorem length_candidates (cur me : Int) :
    (candidates cur me).length = numDays cur me := by
  rw [candidates_eq_map_range, List.length_map, List.length_range]

/-- Advancing a whole number of days shifts the epoch day by that number. -/
theorem epochDay_add_mul (t : Int) (k : Nat) :
    epochDay (t + (k : Int) * msPerDay) = epochDay t + k := by
  simp only [epochDay, msPerDay]
  omega

/-- The candidate sequence is strictly increasing, both as instants and as
calendar days. -/
theorem candidates_pairwise (cur me : Int) :
    (candidates cur me).Pairwise (fun a b => a < b ∧ epochDay a < epochDay b) := by
  rw [candidates_eq_map_range]
  rw [List.pairwise_map]
  apply List.Pairwise.imp ?_ (List.pairwise_lt_range (numDays cur me))
  intro a b hab
  have h1 : epochDay (cur + (a : Int) * msPerDay) = epochDay cur + a :=
    epochDay_add_mul cur a
  have h2 : epochDay (cur + (b : Int) * msPerDay) = epochDay cur + b :=
    epochDay_add_mul cur b
  constructor
  · simp only [msPerDay]
    omega
  · omega

/-! Correctness of the civil-calendar model: `daysFromCivil` inverts
`civilFromDays` (hence the conversion is injective), the month lies in 1..12,
and the day-of-month is between 1 and the length of its month. -/

/-- Bounds on the day-of-era produced by the era decomposition. -/
theorem doe_bounds {zz era doe : Int}
    (hera : era = zz / 146097) (hdoe : doe = zz - era * 146097) :
    0 ≤ doe ∧ doe ≤ 146096 := by omega

/-- Bounds on the century / 4-year-group / year-in-group decomposition of a
day-of-era, including the leap-day characterization: day 365 of a year only
occurs in the last year of a 4-year group that actually has a leap day. -/
theorem stage_bounds {doe c r2 g r3 y3 doy : Int}
    (h0 : 0 ≤ doe) (h1 : doe ≤ 146096)
    (hc : c = doe / 36524 - doe / 146096) (hr2 : r2 = doe - 36524 * c)
    (hg : g = r2 / 1461) (hr3 : r3 = r2 - 1461 * g)
    (hy3 : y3 = r3 / 365 - r3 / 1460) (hdoy : doy = r3 - 365 * y3) :
    0 ≤ c ∧ c ≤ 3 ∧ 0 ≤ g ∧ g ≤ 24 ∧ 0 ≤ y3 ∧ y3 ≤ 3 ∧ 0 ≤ doy ∧ doy ≤ 365 ∧
      (doy = 365 → y3 = 3 ∧ (g ≤ 23 ∨ c = 3)) := by omega

/-- Bounds on the month-and-day extraction from a day-of-March-based-year,
including the per-month day limits. -/
theorem mp_bounds {doy mp d : Int} (h0 : 0 ≤ doy) (h1 : doy ≤ 365)
    (hmp : mp = (5 * doy + 2) / 153) (hd : d = doy - (153 * mp + 2) / 5 + 1) :
    0 ≤ mp ∧ mp ≤ 11 ∧ 1 ≤ d ∧ d ≤ 31 ∧
      (mp = 1 ∨ mp = 3 ∨ mp = 6 ∨ mp = 8 → d ≤ 30) ∧
      (mp = 11 → d ≤ 29) ∧ (mp = 11 → (d = 29 ↔ doy = 365)) := by omega

section CivilCore

variable {z zz era doe c r2 g r3 y3 doy mp d m y : Int}
  (hzz : zz = z + 719468)
  (hera : era = zz / 146097) (hdoe : doe = zz - era * 146097)
  (hc : c = doe / 36524 - doe / 146096) (hr2 : r2 = doe - 36524 * c)
  (hg : g = r2 / 1461) (hr3 : r3 = r2 - 1461 * g)
  (hy3 : y3 = r3 / 365 - r3 / 1460) (hdoy : doy = r3 - 365 * y3)
  (hmp : mp = (5 * doy + 2) / 153) (hd : d = doy - (153 * mp + 2) / 5 + 1)
  (hm : m = mp + (if mp < 10 then 3 else -9))
  (hy : y = 100 * c + 4 * g + y3 + era * 400 + (if m ≤ 2 then 1 else 0))

include hzz hera hdoe hc hr2 hg hr3 hy3 hdoy hmp hd hm hy

/-- Core of the roundtrip: `daysFromCivil` applied to the components computed
by `civilFromDays` recovers the original epoch day. -/
theorem core_round : daysFromCivil y m d = z := by
  have hdoeb := doe_bounds hera hdoe
  have hstage := stage_bounds hdoeb.1 hdoeb.2 hc hr2 hg hr3 hy3 hdoy
  have hmpd := mp_bounds hstage.2.2.2.2.2.2.1 hstage.2.2.2.2.2.2.2.1 hmp hd
  have hrecomp : 36524 * c + 1461 * g + 365 * y3 + doy = doe := by omega
  simp only [daysFromCivil]
  by_cases h10 : mp < 10
  · rw [if_pos h10] at hm
    have hle : ¬ m ≤ 2 := by omega
    have hgt : 2 < m := by omega
    rw [if_neg hle] at hy
    rw [if_neg hle, if_pos hgt]
    have hq : (y - 0) / 400 = era := by omega
    rw [hq]
    have hE : y - 0 - era * 400 = 100 * c + 4 * g + y3 := by omega
    rw [hE]
    rw [show 153 * (m + -3) + 2 = 153 * mp + 2 by omega]
    clear hera hc hr2 hg hr3 hy3 hdoy hmp hm hy hq hE hle hgt h10 hdoeb
    omega
  · rw [if_neg h10] at hm
    have hle : m ≤ 2 := by omega
    have hgt : ¬ 2 < m := by omega
    rw [if_pos hle] at hy
    rw [if_pos hle, if_neg hgt]
    have hq : (y - 1) / 400 = era := by omega
    rw [hq]
    have hE : y - 1 - era * 400 = 100 * c + 4 * g + y3 := by omega
    rw [hE]
    rw [show 153 * (m + 9) + 2 = 153 * mp + 2 by omega]
    clear hera hc hr2 hg hr3 hy3 hdoy hmp hm hy hq hE hle hgt h10 hdoeb
    omega

omit hzz hy in
/-- Core month bound: the month computed by `civilFromDays` lies in 1..12. -/
theorem core_m : 1 ≤ m ∧ m ≤ 12 := by
  have hdoeb := doe_bounds hera hdoe
  have hstage := stage_bounds hdoeb.1 hdoeb.2 hc hr2 hg hr3 hy3 hdoy
  have hmpd := mp_bounds hstage.2.2.2.2.2.2.1 hstage.2.2.2.2.2.2.2.1 hmp hd
  clear hera hdoe hc hr2 hg hr3 hy3 hdoy hmp hd hdoeb
  split_ifs at hm <;> omega

omit hzz in
/-- Core day bound: the day-of-month computed by `civilFromDays` lies between
1 and the number of days of its month (with the Gregorian leap rule). -/
theorem core_d : 1 ≤ d ∧ d ≤ daysInMonth y m := by
  have hdoeb := doe_bounds hera hdoe
  have hstage := stage_bounds hdoeb.1 hdoeb.2 hc hr2 hg hr3 hy3 hdoy
  have hmpd := mp_bounds hstage.2.2.2.2.2.2.1 hstage.2.2.2.2.2.2.2.1 hmp hd
  clear hera hdoe hc hr2 hg hr3 hy3 hdoy hmp hd hdoeb
  simp only [daysInMonth]
  split_ifs at hm hy ⊢ <;> omega

end CivilCore

/-- Specification of `civilFromDays`: the conversion round-trips through
`daysFromCivil`, the month lies in 1..12, and the day-of-month lies between 1
and the length of the month. -/
theorem civilFromDays_spec (z : Int) :
    daysFromCivil (civilFromDays z).1 (civilFromDays z).2.1 (civilFromDays z).2.2 = z ∧
    1 ≤ (civilFromDays z).2.1 ∧ (civilFromDays z).2.1 ≤ 12 ∧
    1 ≤ (civilFromDays z).2.2 ∧
    (civilFromDays z).2.2 ≤ daysInMonth (civilFromDays z).1 (civilFromDays z).2.1 := by
  simp only [civilFromDays]
  refine ⟨?_, ?_, ?_, ?_, ?_⟩
  · exact core_round rfl rfl rfl rfl rfl rfl rfl rfl rfl rfl rfl rfl rfl
  · exact (core_m rfl rfl rfl rfl rfl rfl rfl rfl rfl rfl rfl).1
  · exact (core_m rfl rfl rfl rfl rfl rfl rfl rfl rfl rfl rfl).2
  · exact (core_d rfl rfl rfl rfl rfl rfl rfl rfl rfl rfl rfl rfl).1
  · exact (core_d rfl rfl rfl rfl rfl rfl rfl rfl rfl rfl rfl rfl).2

/-- The civil conversion is injective: distinct epoch days have distinct
civil dates. -/
theorem civilFromDays_injective {z1 z2 : Int}
    (h : civilFromDays z1 = civilFromDays z2) : z1 = z2 := by
  have h1 := (civilFromDays_spec z1).1
  have h2 := (civilFromDays_spec z2).1
  rw [h] at h1
  rw [h2] at h1
  exact h1.symm

/-- Day-of-month never exceeds the length of its month. -/
theorem getDate_le_daysInMonth (ts : Int) :
    getDate ts ≤ daysInMonth (getFullYear ts) (getMonthNum ts) :=
  (civilFromDays_spec (epochDay ts)).2.2.2.2

/-! Characterization of `escapeText`. -/

/-- `replaceCharL` on a `cons`. -/
theorem replaceCharL_cons (a : Char) (l : List Char) (c : Char) (r : List Char) :
    replaceCharL (a :: l) c r = (if a = c then r else [a]) ++ replaceCharL l c r := by
  simp [replaceCharL]

/-- `replaceCharL` distributes over concatenation. -/
theorem replaceCharL_append (l1 l2 : List Char) (c : Char) (r : List Char) :
    replaceCharL (l1 ++ l2) c r = replaceCharL l1 c r ++ replaceCharL l2 c r := by
  simp [replaceCharL]

/-- `escapeTextL` distributes over concatenation. -/
theorem escapeTextL_append (l1 l2 : List Char) :
    escapeTextL (l1 ++ l2) = escapeTextL l1 ++ escapeTextL l2 := by
  simp [escapeTextL, replaceCharL_append]

/-- The image of a single character under the escape chain. -/
theorem escapeTextL_singleton (a : Char) : escapeTextL [a] = escChar a := by
  by_cases h1 : a = '\\'
  · subst h1; rfl
  by_cases h2 : a = ';'
  · subst h2; rfl
  by_cases h3 : a = ','
  · subst h3; rfl
  by_cases h4 : a = '\n'
  · subst h4; rfl
  simp [escapeTextL, replaceCharL, escChar, h1, h2, h3, h4]

/-- The escape chain acts independently on each character. -/
theorem escapeTextL_eq_flatMap (l : List Char) :
    escapeTextL l = l.flatMap escChar := by
  induction l with
  | nil => rfl
  | cons a t ih =>
    rw [← List.singleton_append, escapeTextL_append, escapeTextL_singleton, ih,
      List.singleton_append, List.flatMap_cons]

/-- String-level characterization: `escapeText` maps each character of its
input through `escChar` (specials become their backslash escapes, all other
characters are kept verbatim) and concatenates the results. -/
theorem escapeText_eq (s : String) :
    escapeText s = (s.toList.flatMap escChar).asString := by
  by_cases h : s = ""
  · subst h; rfl
  · simp [escapeText, h, escapeTextL_eq_flatMap]

/-! Helper lemmas about the expander. -/

/-- The recurring branch of the expander, as a filter of the candidates. -/
theorem gen_rec_eq (ev : Event) (ws we : Int) (h : ev.isRecurring = true) :
    generateRecurringEvents ev ws we =
      (candidates (max ev.startDate ws) we).filterMap
        (fun t => if shouldAdd ev ev.startDate (parseDaysOfWeek ev.daysOfWeek) t ∧
            ev.startDate ≤ t then
          some { event := ev, displayDate := t } else none) := by
  simp [generateRecurringEvents, h, genLoop_eq_filterMap]

/-- The non-recurring branch of the expander. -/
theorem gen_nonrec_eq (ev : Event) (ws we : Int) (h : ev.isRecurring = false) :
    generateRecurringEvents ev ws we =
      (if ws ≤ ev.startDate ∧ ev.startDate ≤ we then
        [{ event := ev, displayDate := ev.startDate }]
      else []) := by
  simp [generateRecurringEvents, h]

/-- Membership in the expander output for recurring events. -/
theorem mem_gen_rec {ev : Event} {ws we : Int} {occ : Occurrence}
    (h : ev.isRecurring = true) :
    occ ∈ generateRecurringEvents ev ws we ↔
      ∃ t ∈ candidates (max ev.startDate ws) we,
        shouldAdd ev ev.startDate (parseDaysOfWeek ev.daysOfWeek) t = true ∧
        ev.startDate ≤ t ∧ occ = { event := ev, displayDate := t } := by
  rw [gen_rec_eq ev ws we h]
  rw [List.mem_filterMap]
  constructor
  · rintro ⟨t, ht, hsome⟩
    by_cases hc : shouldAdd ev ev.startDate (parseDaysOfWeek ev.daysOfWeek) t = true ∧
        ev.startDate ≤ t
    · rw [if_pos hc] at hsome
      exact ⟨t, ht, hc.1, hc.2, (Option.some.inj hsome).symm⟩
    · rw [if_neg hc] at hsome
      cases hsome
  · rintro ⟨t, ht, h1, h2, rfl⟩
    exact ⟨t, ht, by rw [if_pos ⟨h1, h2⟩]⟩

/-- The expander output is pairwise strictly increasing, both as instants
and as calendar days. -/
theorem gen_pairwise (ev : Event) (ws we : Int) :
    (generateRecurringEvents ev ws we).Pairwise
      (fun a b => a.displayDate < b.displayDate ∧
        epochDay a.displayDate < epochDay b.displayDate) := by
  by_cases h : ev.isRecurring
  · rw [gen_rec_eq ev ws we h]
    rw [List.pairwise_filterMap]
    apply List.Pairwise.imp ?_ (candidates_pairwise (max ev.startDate ws) we)
    intro a b hab
    intro x hx y hy
    simp only [Option.mem_def] at hx hy
    by_cases hca : shouldAdd ev ev.startDate (parseDaysOfWeek ev.daysOfWeek) a = true ∧
        ev.startDate ≤ a
    · by_cases hcb : shouldAdd ev ev.startDate (parseDaysOfWeek ev.daysOfWeek) b = true ∧
          ev.startDate ≤ b
      · rw [if_pos hca] at hx
        rw [if_pos hcb] at hy
        rw [← Option.some.inj hx, ← Option.some.inj hy]
        exact hab
      · rw [if_neg hcb] at hy
        cases hy
    · rw [if_neg hca] at hx
      cases hx
  · have h' : ev.isRecurring = false := by simpa using h
    rw [gen_nonrec_eq ev ws we h']
    by_cases hc : ws ≤ ev.startDate ∧ ev.startDate ≤ we
    · rw [if_pos hc]
      exact List.pairwise_singleton _ _
    · rw [if_neg hc]
      exact List.Pairwise.nil

/-- Counting elements of a list that share a key with a member, when keys are
pairwise distinct: there is exactly one (the member itself). -/
theorem countP_key_of_mem {α : Type} (key : α → Int) {l : List α}
    (hpw : l.Pairwise (fun a b => key a ≠ key b)) {o : α} (ho : o ∈ l) :
    l.countP (fun x => key x == key o) = 1 := by
  induction l with
  | nil => cases ho
  | cons a t ih =>
    rcases List.mem_cons.mp ho with rfl | hot
    · rw [List.countP_cons_of_pos _ _ (by simp)]
      have hz : t.countP (fun x => key x == key o) = 0 := by
        rw [List.countP_eq_zero]
        intro b hb
        have hne := (List.pairwise_cons.mp hpw).1 b hb
        simp [hne.symm]
      omega
    · have hne := (List.pairwise_cons.mp hpw).1 o hot
      rw [List.countP_cons_of_neg _ _ (by simp [hne])]
      exact ih (List.pairwise_cons.mp hpw).2 hot

/-- `shouldAdd` for a daily event is always `true`. -/
theorem shouldAdd_daily {ev : Event} (hfreq : ev.frequency = "daily")
    (s : Int) (days : List (Option Int)) (t : Int) :
    shouldAdd ev s days t = true := by
  unfold shouldAdd
  rw [hfreq, if_pos rfl]

/-- `shouldAdd` for a weekly event is the weekday membership test. -/
theorem shouldAdd_weekly {ev : Event} (hfreq : ev.frequency = "weekly")
    (s : Int) (days : List (Option Int)) (t : Int) :
    shouldAdd ev s days t = days.contains (some (getDay t)) := by
  unfold shouldAdd
  rw [hfreq, if_neg (by decide), if_pos rfl]

/-- `shouldAdd` for a monthly event compares days of month. -/
theorem shouldAdd_monthly {ev : Event} (hfreq : ev.frequency = "monthly")
    (s : Int) (days : List (Option Int)) (t : Int) :
    shouldAdd ev s days t = (getDate t == getDate s) := by
  unfold shouldAdd
  rw [hfreq, if_neg (by decide), if_neg (by decide), if_pos rfl]

/-- Every occurrence of a monthly event falls on the anchor day-of-month. -/
theorem gen_monthly_dom {ev : Event} {ws we : Int} (hrec : ev.isRecurring = true)
    (hfreq : ev.frequency = "monthly") :
    ∀ occ ∈ generateRecurringEvents ev ws we,
      getDate occ.displayDate = getDate ev.startDate := by
  intro occ hocc
  obtain ⟨t, _, hadd, _, rfl⟩ := (mem_gen_rec hrec).mp hocc
  rw [shouldAdd_monthly hfreq] at hadd
  exact beq_iff_eq.mp hadd

/-- Consecutive candidates differ by exactly one day. -/
theorem candidates_chain' (cur me : Int) :
    List.Chain' (fun a b => b = a + msPerDay) (candidates cur me) := by
  generalize hm : (me + msPerDay - cur).toNat = n
  induction n using Nat.strong_induction_on generalizing cur with
  | _ n ih =>
    by_cases h : cur ≤ me
    · rw [candidates_of_le h, List.chain'_cons']
      constructor
      · intro b hb
        by_cases h2 : cur + msPerDay ≤ me
        · rw [candidates_of_le h2] at hb
          simpa using hb.symm
        · rw [candidates_of_gt h2] at hb
          cases hb
      · exact ih ((me + msPerDay - (cur + msPerDay)).toNat)
          (by simp only [msPerDay] at hm ⊢; omega) (cur + msPerDay) rfl
    · rw [candidates_of_gt h]
      exact List.chain'_nil

/-- Length of a `filterMap` that keeps every element. -/
theorem length_filterMap_of_all_some {α β : Type} (f : α → Option β)
    (l : List α) (h : ∀ a ∈ l, (f a).isSome) :
    (l.filterMap f).length = l.length := by
  induction l with
  | nil => rfl
  | cons a t ih =>
    rw [List.filterMap_cons]
    rcases ho : f a with _ | b
    · exact absurd (h a (by simp)) (by simp [ho])
    · simp only [List.length_cons]
      rw [ih (fun x hx => h x (List.mem_cons_of_mem a hx))]

/-- A daily recurring event yields one occurrence per loop iteration. -/
theorem gen_daily_count (ev : Event) (ws we : Int) (hrec : ev.isRecurring = true)
    (hfreq : ev.frequency = "daily") :
    (generateRecurringEvents ev ws we).length = numDays (max ev.startDate ws) we := by
  rw [gen_rec_eq ev ws we hrec]
  rw [length_filterMap_of_all_some _ _ ?_, length_candidates]
  intro t ht
  have hb := candidates_bounds ht
  have hge : ev.startDate ≤ t := le_trans (le_max_left _ _) hb.1
  rw [if_pos ⟨shouldAdd_daily hfreq ev.startDate (parseDaysOfWeek ev.daysOfWeek) t, hge⟩]
  rfl

/-! Claim checks. -/

/-- C1: the claim "no emitted displayDate is later than the definition's
endDate" fails on the code: `generateRecurringEvents` never consults
`endDate` (the source binds it and leaves it unused), so the daily event
`evC1` ending 1970-01-05 still produces an occurrence on 1970-01-31 when the
window is January 1970. -/
theorem c1_endDate_exceeded :
    ∃ occ ∈ generateRecurringEvents evC1 0 (30 * msPerDay),
      evC1.endDate < occ.displayDate := by
  refine ⟨{ event := evC1, displayDate := 30 * msPerDay }, ?_, by decide⟩
  rw [mem_gen_rec rfl]
  refine ⟨30 * msPerDay, ?_, shouldAdd_daily rfl _ _ _, by decide, rfl⟩
  rw [mem_candidates]
  exact ⟨30, by decide, by decide⟩

/-- C2: the claim "the count equals the number of days in
`[max(startDate, windowStart), min(endDate, windowEnd)]`" fails on the code:
for `evC1`-like input the claimed count is 5 (1970-01-01 .. 1970-01-05) but
the code, which ignores `endDate`, returns 31 occurrences (the whole January
window). -/
theorem c2_daily_count_ignores_endDate :
    (generateRecurringEvents evC2 0 (30 * msPerDay)).length = 31 ∧
    (min evC2.endDate (30 * msPerDay) - max evC2.startDate 0) / msPerDay + 1 = 5 := by
  constructor
  · rw [gen_daily_count evC2 0 (30 * msPerDay) rfl rfl]
    decide
  · decide

/-- C3 (counterexample): the claim says a non-recurring event is emitted iff
its startDate, truncated to a calendar date, lies in the window.  For `evC3a`
(noon 1970-01-01) and the window [0, 0] (midnight 1970-01-01 twice), the
calendar date of startDate equals the calendar date of both window bounds,
yet the code compares full timestamps and emits nothing. -/
theorem c3_calendar_truncation_fails :
    epochDay 0 ≤ epochDay evC3a.startDate ∧ epochDay evC3a.startDate ≤ epochDay 0 ∧
    generateRecurringEvents evC3a 0 0 = [] := by
  refine ⟨by decide, by decide, ?_⟩
  rw [gen_nonrec_eq evC3a 0 0 rfl, if_neg (by decide)]

/-- C3 (amended): a non-recurring definition yields exactly one Occurrence,
whose displayDate is the definition's startDate, iff its startDate compared
as a full instant (no truncation of time-of-day) lies within
[windowStart, windowEnd]; otherwise it yields zero Occurrences. -/
theorem c3_nonrecurring_window (ev : Event) (ws we : Int)
    (h : ev.isRecurring = false) :
    (generateRecurringEvents ev ws we =
        [{ event := ev, displayDate := ev.startDate }] ↔
      ws ≤ ev.startDate ∧ ev.startDate ≤ we) ∧
    (¬ (ws ≤ ev.startDate ∧ ev.startDate ≤ we) →
      generateRecurringEvents ev ws we = []) := by
  constructor
  · constructor
    · intro heq
      by_contra hc
      rw [gen_nonrec_eq ev ws we h, if_neg hc] at heq
      cases heq
    · intro hc
      rw [gen_nonrec_eq ev ws we h, if_pos hc]
  · intro hc
    rw [gen_nonrec_eq ev ws we h, if_neg hc]

/-- C3 witness: the amended statement instantiated at `evC3b` (instant 5)
with window [0, 10]. -/
theorem c3_nonrecurring_window_witness :
    evC3b.isRecurring = false ∧
    ((generateRecurringEvents evC3b 0 10 =
        [{ event := evC3b, displayDate := evC3b.startDate }] ↔
      0 ≤ evC3b.startDate ∧ evC3b.startDate ≤ 10) ∧
    (¬ (0 ≤ evC3b.startDate ∧ evC3b.startDate ≤ 10) →
      generateRecurringEvents evC3b 0 10 = [])) :=
  ⟨rfl, c3_nonrecurring_window evC3b 0 10 rfl⟩

/-- C4: for a weekly definition, every emitted occurrence's weekday is a
member of the parsed daysOfWeek set; and every candidate day of the iterated
range whose weekday is in the set and which is on or after startDate produces
exactly one occurrence. -/
theorem c4_weekly_weekdays (ev : Event) (ws we : Int)
    (hrec : ev.isRecurring = true) (hfreq : ev.frequency = "weekly") :
    (∀ occ ∈ generateRecurringEvents ev ws we,
      (parseDaysOfWeek ev.daysOfWeek).contains (some (getDay occ.displayDate)) = true) ∧
    (∀ t ∈ candidates (max ev.startDate ws) we,
      (parseDaysOfWeek ev.daysOfWeek).contains (some (getDay t)) = true →
      ev.startDate ≤ t →
      (generateRecurringEvents ev ws we).countP
        (fun o => epochDay o.displayDate == epochDay t) = 1) := by
  constructor
  · intro occ hocc
    obtain ⟨t, _, hadd, _, rfl⟩ := (mem_gen_rec hrec).mp hocc
    rw [shouldAdd_weekly hfreq] at hadd
    exact hadd
  · intro t ht hdw hge
    have hmem : ({ event := ev, displayDate := t } : Occurrence) ∈
        generateRecurringEvents ev ws we := by
      rw [mem_gen_rec hrec]
      exact ⟨t, ht, by rw [shouldAdd_weekly hfreq]; exact hdw, hge, rfl⟩
    have hpw : (generateRecurringEvents ev ws we).Pairwise
        (fun a b => epochDay a.displayDate ≠ epochDay b.displayDate) :=
      (gen_pairwise ev ws we).imp fun h => h.2.ne
    exact countP_key_of_mem (fun o => epochDay o.displayDate) hpw hmem

/-- C4 witness: `evC4` (weekly, Mon/Wed/Fri) over the first two weeks of
January 1970; day 4 (Monday 1970-01-05) is a qualifying candidate. -/
theorem c4_weekly_weekdays_witness :
    evC4.isRecurring = true ∧ evC4.frequency = "weekly" ∧
    ((∀ occ ∈ generateRecurringEvents evC4 0 (13 * msPerDay),
      (parseDaysOfWeek evC4.daysOfWeek).contains (some (getDay occ.displayDate)) = true) ∧
    (∀ t ∈ candidates (max evC4.startDate 0) (13 * msPerDay),
      (parseDaysOfWeek evC4.daysOfWeek).contains (some (getDay t)) = true →
      evC4.startDate ≤ t →
      (generateRecurringEvents evC4 0 (13 * msPerDay)).countP
        (fun o => epochDay o.displayDate == epochDay t) = 1)) :=
  ⟨rfl, rfl, c4_weekly_weekdays evC4 0 (13 * msPerDay) rfl rfl⟩

/-- C5: every occurrence of a monthly definition falls on startDate's
day-of-month, and no two occurrences share the same civil month. -/
theorem c5_monthly_anchor (ev : Event) (ws we : Int)
    (hrec : ev.isRecurring = true) (hfreq : ev.frequency = "monthly") :
    (∀ occ ∈ generateRecurringEvents ev ws we,
      getDate occ.displayDate = getDate ev.startDate) ∧
    (∀ a ∈ generateRecurringEvents ev ws we,
      ∀ b ∈ generateRecurringEvents ev ws we,
      getFullYear a.displayDate = getFullYear b.displayDate →
      getMonthNum a.displayDate = getMonthNum b.displayDate → a = b) := by
  refine ⟨gen_monthly_dom hrec hfreq, ?_⟩
  intro a ha b hb hy hm
  by_contra hne
  have hd : getDate a.displayDate = getDate b.displayDate := by
    rw [gen_monthly_dom hrec hfreq a ha, gen_monthly_dom hrec hfreq b hb]
  have hciv : civilOf a.displayDate = civilOf b.displayDate := by
    have h1 : (civilOf a.displayDate).1 = (civilOf b.displayDate).1 := hy
    have h2 : (civilOf a.displayDate).2.1 = (civilOf b.displayDate).2.1 := hm
    have h3 : (civilOf a.displayDate).2.2 = (civilOf b.displayDate).2.2 := hd
    exact Prod.ext h1 (Prod.ext h2 h3)
  have hday : epochDay a.displayDate = epochDay b.displayDate :=
    civilFromDays_injective hciv
  have hpw : (generateRecurringEvents ev ws we).Pairwise
      (fun x y => epochDay x.displayDate ≠ epochDay y.displayDate) :=
    (gen_pairwise ev ws we).imp fun h => h.2.ne
  exact (hpw.forall (fun x y hxy => hxy.symm) ha hb hne) hday

/-- C5 witness: `evC5` (monthly, anchored 1970-01-31) over the first 90 days
of 1970. -/
theorem c5_monthly_anchor_witness :
    evC5.isRecurring = true ∧ evC5.frequency = "monthly" ∧
    ((∀ occ ∈ generateRecurringEvents evC5 0 (89 * msPerDay),
      getDate occ.displayDate = getDate evC5.startDate) ∧
    (∀ a ∈ generateRecurringEvents evC5 0 (89 * msPerDay),
      ∀ b ∈ generateRecurringEvents evC5 0 (89 * msPerDay),
      getFullYear a.displayDate = getFullYear b.displayDate →
      getMonthNum a.displayDate = getMonthNum b.displayDate → a = b)) :=
  ⟨rfl, rfl, c5_monthly_anchor evC5 0 (89 * msPerDay) rfl rfl⟩

/-- C6: a weekly definition whose daysOfWeek string is empty yields zero
occurrences for every window (the expander is a total function, so it cannot
throw). -/
theorem c6_weekly_empty_days (ev : Event) (ws we : Int)
    (hrec : ev.isRecurring = true) (hfreq : ev.frequency = "weekly")
    (hdow : ev.daysOfWeek = "") :
    generateRecurringEvents ev ws we = [] := by
  rw [gen_rec_eq ev ws we hrec, List.filterMap_eq_nil_iff]
  intro t _
  rw [if_neg]
  rintro ⟨hadd, -⟩
  rw [shouldAdd_weekly hfreq, hdow] at hadd
  simp [parseDaysOfWeek] at hadd

/-- C6 witness: `evC6` with the January 1970 window. -/
theorem c6_weekly_empty_days_witness :
    evC6.isRecurring = true ∧ evC6.frequency = "weekly" ∧ evC6.daysOfWeek = "" ∧
    generateRecurringEvents evC6 0 (30 * msPerDay) = [] :=
  ⟨rfl, rfl, rfl, c6_weekly_empty_days evC6 0 (30 * msPerDay) rfl rfl rfl⟩

/-- C7: for every definition and window the expander output is strictly
ascending in displayDate, and no two occurrences share a calendar day. -/
theorem c7_sorted_no_same_day (ev : Event) (ws we : Int) :
    (generateRecurringEvents ev ws we).Pairwise
      (fun a b => a.displayDate < b.displayDate) ∧
    (generateRecurringEvents ev ws we).Pairwise
      (fun a b => epochDay a.displayDate ≠ epochDay b.displayDate) :=
  ⟨(gen_pairwise ev ws we).imp fun h => h.1,
   (gen_pairwise ev ws we).imp fun h => h.2.ne⟩

/-- C8: in the ICS output, the SUMMARY and DESCRIPTION lines carry the title
and description through `escapeText`, which escapes every backslash,
semicolon, comma, and newline (each input character maps through `escChar`:
specials become their backslash escape, everything else is verbatim). -/
theorem c8_ics_escapes (ev : Event) :
    escapeText ev.title = (ev.title.toList.flatMap escChar).asString ∧
    escapeText ev.description = (ev.description.toList.flatMap escChar).asString ∧
    ("SUMMARY:" ++ escapeText ev.title) ∈ (icsLines ev).filter (fun l => l != "") ∧
    (ev.description ≠ "" →
      ("DESCRIPTION:" ++ escapeText ev.description) ∈
        (icsLines ev).filter (fun l => l != "")) := by
  have hne : ∀ (p : String) (x : String), p.length ≠ 0 → (p ++ x) ≠ "" := by
    intro p x hp h
    have := congrArg String.length h
    rw [String.length_append] at this
    simp at this
    omega
  refine ⟨escapeText_eq ev.title, escapeText_eq ev.description, ?_, ?_⟩
  · apply List.mem_filter.mpr
    refine ⟨by simp [icsLines], ?_⟩
    simpa using hne "SUMMARY:" (escapeText ev.title) (by decide)
  · intro hd
    apply List.mem_filter.mpr
    constructor
    · have hif : (if ev.description ≠ "" then
          "DESCRIPTION:" ++ escapeText ev.description else "") =
          "DESCRIPTION:" ++ escapeText ev.description := if_pos hd
      rw [icsLines, hif]
      exact List.mem_cons_of_mem _ (List.mem_cons_of_mem _ (List.mem_cons_of_mem _
        (List.mem_cons_of_mem _ (List.mem_cons_of_mem _ (List.mem_cons_of_mem _
        (List.mem_cons_of_mem _ (List.mem_cons_of_mem _ (List.mem_cons_of_mem _
        (List.mem_cons_of_mem _ (List.mem_cons_of_mem _
        (List.mem_cons_self _ _)))))))))))
    · simpa using hne "DESCRIPTION:" (escapeText ev.description) (by decide)

/-- C8 witness: `evC8`, whose title and description contain every special
character. -/
theorem c8_ics_escapes_witness :
    escapeText evC8.title = (evC8.title.toList.flatMap escChar).asString ∧
    escapeText evC8.description = (evC8.description.toList.flatMap escChar).asString ∧
    ("SUMMARY:" ++ escapeText evC8.title) ∈ (icsLines evC8).filter (fun l => l != "") ∧
    (evC8.description ≠ "" →
      ("DESCRIPTION:" ++ escapeText evC8.description) ∈
        (icsLines evC8).filter (fun l => l != "")) :=
  c8_ics_escapes evC8

/-- C9: a monthly definition whose anchor day-of-month exceeds the length of
a given civil month contributes no occurrence in that month — the month is
skipped, never clamped to its last day. -/
theorem c9_monthly_overflow_skips (ev : Event) (ws we y m : Int)
    (hrec : ev.isRecurring = true) (hfreq : ev.frequency = "monthly")
    (hshort : daysInMonth y m < getDate ev.startDate) :
    ∀ occ ∈ generateRecurringEvents ev ws we,
      ¬ (getFullYear occ.displayDate = y ∧ getMonthNum occ.displayDate = m) := by
  rintro occ hocc ⟨hy, hm⟩
  have hdom := gen_monthly_dom hrec hfreq occ hocc
  have hle := getDate_le_daysInMonth occ.displayDate
  rw [hy, hm, hdom] at hle
  omega

/-- C9 witness: `evC9` (anchored on the 31st) over January..March 1970, with
February 1970 (28 days) as the skipped month. -/
theorem c9_monthly_overflow_skips_witness :
    evC9.isRecurring = true ∧ evC9.frequency = "monthly" ∧
    daysInMonth 1970 2 < getDate evC9.startDate ∧
    (∀ occ ∈ generateRecurringEvents evC9 (30 * msPerDay) (89 * msPerDay),
      ¬ (getFullYear occ.displayDate = 1970 ∧ getMonthNum occ.displayDate = 2)) :=
  ⟨rfl, rfl, by decide,
    c9_monthly_overflow_skips evC9 (30 * msPerDay) (89 * msPerDay) 1970 2 rfl rfl
      (by decide)⟩

/-- C10: the expander loop terminates: the candidate sequence it visits
advances by exactly one calendar day per iteration, stays within
[max(startDate, windowStart), windowEnd], and has exactly `numDays`
elements, which also bounds the number of emitted occurrences. -/
theorem c10_loop_terminates (ev : Event) (ws we : Int)
    (hrec : ev.isRecurring = true) :
    List.Chain' (fun a b => b = a + msPerDay)
      (candidates (max ev.startDate ws) we) ∧
    (∀ t ∈ candidates (max ev.startDate ws) we,
      max ev.startDate ws ≤ t ∧ t ≤ we) ∧
    (candidates (max ev.startDate ws) we).length = numDays (max ev.startDate ws) we ∧
    (generateRecurringEvents ev ws we).length ≤ numDays (max ev.startDate ws) we := by
  refine ⟨candidates_chain' _ _, fun t ht => candidates_bounds ht,
    length_candidates _ _, ?_⟩
  rw [gen_rec_eq ev ws we hrec]
  calc (List.filterMap _ (candidates (max ev.startDate ws) we)).length
      ≤ (candidates (max ev.startDate ws) we).length :=
        List.length_filterMap_le _ _
    _ = numDays (max ev.startDate ws) we := length_candidates _ _

/-- C10 witness: `evC10` with the January 1970 window. -/
theorem c10_loop_terminates_witness :
    evC10.isRecurring = true ∧
    (List.Chain' (fun a b => b = a + msPerDay)
      (candidates (max evC10.startDate 0) (30 * msPerDay)) ∧
    (∀ t ∈ candidates (max evC10.startDate 0) (30 * msPerDay),
      max evC10.startDate 0 ≤ t ∧ t ≤ 30 * msPerDay) ∧
    (candidates (max evC10.startDate 0) (30 * msPerDay)).length =
      numDays (max evC10.startDate 0) (30 * msPerDay) ∧
    (generateRecurringEvents evC10 0 (30 * msPerDay)).length ≤
      numDays (max evC10.startDate 0) (30 * msPerDay)) :=
  ⟨rfl, c10_loop_terminates evC10 0 (30 * msPerDay) rfl⟩

end Cal
